import Mathlib

/-!
Verification development for the `sapcc/ipmi_exporter` repository.

The definitions below are a shallow embedding of the Go source:

* `freeipmi` package (file with `GetSensorData`, `getValue`,
  `GetBMCInfoFirmwareRevision`, `GetBMCInfoManufacturerID`,
  `GetCurrentPowerConsumption`, ...),
* `collector.go` (`metaCollector.Collect`, `flushSensorSDRCache`).

Machine integers are modelled as `Int` with the explicit 64-bit range
checks of `strconv.ParseInt`.  Float values are modelled exactly:
`strconv.ParseFloat` is embedded as syntax acceptance (special
`inf`/`infinity`/`nan` spellings with Go's sign rules), the binary64
half-ULP overflow threshold beyond which Go returns `ErrRange` and
every caller aborts, and an exact rational value (`GoFloat`) for
in-range results; the rounding of in-range values to the nearest
binary64 (including the silent rounding of tiny values towards zero)
is not modelled — every value a claim evaluates is exactly
representable.  Fallible Go code returning `(value, error)` pairs is
embedded as such pairs with `Option`/`Except` components; a Go
runtime panic (index out of range) is the explicit outcome
`SensorParseResult.crash`.
-/

set_option maxRecDepth 8192

namespace IpmiExporter

/-! ## Characters and small string helpers -/

/-- Decimal digit test, `0-9`. -/
def isDigitCh (c : Char) : Bool := decide ('0' ≤ c) && decide (c ≤ '9')

/-- Numeric value of a decimal digit. -/
def digVal (c : Char) : Nat := c.toNat - '0'.toNat

/-- Hexadecimal digit test. -/
def isHexDigitCh (c : Char) : Bool :=
  isDigitCh c || (decide ('a' ≤ c) && decide (c ≤ 'f')) || (decide ('A' ≤ c) && decide (c ≤ 'F'))

/-- Numeric value of a hexadecimal digit. -/
def hexVal (c : Char) : Nat :=
  if isDigitCh c then digVal c
  else if decide ('a' ≤ c) && decide (c ≤ 'f') then c.toNat - 'a'.toNat + 10
  else c.toNat - 'A'.toNat + 10

/-- ASCII lower-casing of one character (Go `lower`). -/
def toLowerCh (c : Char) : Char :=
  if decide ('A' ≤ c) && decide ('Z' ≥ c) then Char.ofNat (c.toNat + 32) else c

/-- The single-quote character `'`. -/
def squote : Char := Char.ofNat 39

/-- The double-quote character `"`. -/
def dquote : Char := Char.ofNat 34

/-- Whitespace class of Go regexp `\s`, i.e. `[\t\n\f\r ]`. -/
def isGoSpace (c : Char) : Bool :=
  c = ' ' || c = Char.ofNat 9 || c = Char.ofNat 10 || c = Char.ofNat 12 || c = Char.ofNat 13

/-- Character class `[0-9.]` used by the value-capturing regexes. -/
def isValChar (c : Char) : Bool := isDigitCh c || c = '.'

/-- Strip a literal prefix from a character list, returning the remainder. -/
def stripPrefixL : List Char → List Char → Option (List Char)
  | [], s => some s
  | _ :: _, [] => none
  | p :: ps, c :: cs => if p = c then stripPrefixL ps cs else none

/-- Boolean prefix test on character lists. -/
def isPrefixL : List Char → List Char → Bool
  | [], _ => true
  | _ :: _, [] => false
  | p :: ps, c :: cs => p = c && isPrefixL ps cs

/-- Substring containment on character lists; `containsL sub hay` embeds
Go `strings.Contains(hay, sub)`. -/
def containsL (sub : List Char) : List Char → Bool
  | [] => sub.isEmpty
  | c :: t => isPrefixL sub (c :: t) || containsL sub t

/-- Go `strings.Contains(s, sub)`. -/
def goContains (s sub : String) : Bool := containsL sub.toList s.toList

/-- Value of a list of decimal digits. -/
def decDigitsVal (ds : List Char) : Nat := ds.foldl (fun a c => a * 10 + digVal c) 0

/-- Value of a list of hexadecimal digits. -/
def hexDigitsVal (ds : List Char) : Nat := ds.foldl (fun a c => a * 16 + hexVal c) 0

/-! ## `strconv.ParseInt(s, 10, 64)`

Embeds the base-10, 64-bit case: optional sign, a non-empty run of
decimal digits (no underscores with an explicit base), and the
`int64` range check.  Any error (syntax or range) is `none`, matching
the caller aborting whenever `err != nil`. -/

/-- Go `strconv.ParseInt(s, 10, 64)`; `none` is any non-nil error. -/
def parseGoInt (s : String) : Option Int :=
  match s.toList with
  | [] => none
  | cs =>
    let p := match cs with
      | '+' :: t => (false, t)
      | '-' :: t => (true, t)
      | t => (false, t)
    if p.2.isEmpty || !(p.2.all isDigitCh) then none
    else
      let v : Int := if p.1 then -(decDigitsVal p.2 : Int) else (decDigitsVal p.2 : Int)
      if v < -(2 ^ 63) || (2 ^ 63 - 1 : Int) < v then none else some v

/-! ## `strconv.ParseFloat(s, 64)`

Embeds acceptance and exact value: optional sign; the special strings
`inf`, `infinity`, `nan` (case-insensitive); hexadecimal mantissas with
a mandatory `p` exponent; decimal mantissas with an optional `e`
exponent; underscores as accepted by Go's `underscoreOK`.  The numeric
value is kept exact as a rational. -/

/-- One step of Go `strconv.underscoreOK`; `saw` is the last seen
character class (`^` start, `0` digit or base prefix, `_`, `!` other). -/
def underscoreOKAux (hex : Bool) : Char → List Char → Bool
  | saw, [] => saw ≠ '_'
  | saw, c :: rest =>
    if isDigitCh c || (hex && isHexDigitCh c) then underscoreOKAux hex '0' rest
    else if c = '_' then saw = '0' && underscoreOKAux hex '_' rest
    else if saw = '_' then false
    else underscoreOKAux hex '!' rest

/-- Go `strconv.underscoreOK`: underscores only between digits, or
between a base prefix and a digit. -/
def underscoreOK (cs : List Char) : Bool :=
  let cs1 := match cs with
    | '+' :: t => t
    | '-' :: t => t
    | t => t
  match cs1 with
  | '0' :: x :: rest =>
    if toLowerCh x = 'x' then underscoreOKAux true '0' rest
    else underscoreOKAux false '^' cs1
  | _ => underscoreOKAux false '^' cs1

/-- A Go `float64` as produced by the embedded parsers: `NaN`, a signed
infinity, or an exact finite value. -/
inductive GoFloat where
  | nan : GoFloat
  | inf (neg : Bool) : GoFloat
  | fin (q : ℚ) : GoFloat
  deriving DecidableEq, Repr

/-- Decimal mantissa and optional exponent, on an underscore-free,
sign-free character list; the exact nonnegative value is returned as
a numerator/denominator pair.  `none` is a syntax error. -/
def parseDecCore (cs : List Char) : Option (Nat × Nat) :=
  let ip := cs.takeWhile isDigitCh
  let r1 := cs.dropWhile isDigitCh
  let fpr : List Char × List Char := match r1 with
    | '.' :: t => (t.takeWhile isDigitCh, t.dropWhile isDigitCh)
    | _ => ([], r1)
  let hadDot : Bool := match r1 with
    | '.' :: _ => true
    | _ => false
  if ip.isEmpty && (!hadDot || fpr.1.isEmpty) then none
  else
    let m : Nat := decDigitsVal (ip ++ fpr.1)
    let dlen : Nat := fpr.1.length
    match fpr.2 with
    | [] => some (m, 10 ^ dlen)
    | e :: t =>
      if toLowerCh e = 'e' then
        let sp := match t with
          | '+' :: t2 => (false, t2)
          | '-' :: t2 => (true, t2)
          | t2 => (false, t2)
        let ds := sp.2.takeWhile isDigitCh
        if ds.isEmpty || !(sp.2.dropWhile isDigitCh).isEmpty then none
        else if sp.1 then some (m, 10 ^ dlen * 10 ^ decDigitsVal ds)
        else some (m * 10 ^ decDigitsVal ds, 10 ^ dlen)
      else none

/-- Hexadecimal mantissa with mandatory binary exponent, after the
`0x` prefix, on an underscore-free character list; the exact
nonnegative value is returned as a numerator/denominator pair. -/
def parseHexCore (cs : List Char) : Option (Nat × Nat) :=
  let ip := cs.takeWhile isHexDigitCh
  let r1 := cs.dropWhile isHexDigitCh
  let fpr : List Char × List Char := match r1 with
    | '.' :: t => (t.takeWhile isHexDigitCh, t.dropWhile isHexDigitCh)
    | _ => ([], r1)
  let hadDot : Bool := match r1 with
    | '.' :: _ => true
    | _ => false
  if ip.isEmpty && (!hadDot || fpr.1.isEmpty) then none
  else
    let m : Nat := hexDigitsVal (ip ++ fpr.1)
    let dlen : Nat := fpr.1.length
    match fpr.2 with
    | p :: t =>
      if toLowerCh p = 'p' then
        let sp := match t with
          | '+' :: t2 => (false, t2)
          | '-' :: t2 => (true, t2)
          | t2 => (false, t2)
        let ds := sp.2.takeWhile isDigitCh
        if ds.isEmpty || !(sp.2.dropWhile isDigitCh).isEmpty then none
        else if sp.1 then some (m, 16 ^ dlen * 2 ^ decDigitsVal ds)
        else some (m * 2 ^ decDigitsVal ds, 16 ^ dlen)
      else none
    | [] => none

/-- Half-ULP overflow threshold of binary64: a finite decimal whose
magnitude is at least `2^1024 - 2^970` rounds to infinity, for which
`strconv.ParseFloat` returns `ErrRange` — a non-nil error on which
every caller in this code base aborts. -/
def float64OverflowThreshold : Nat := 2 ^ 970 * (2 ^ 54 - 1)

/-- Go `strconv.ParseFloat(s, 64)`; `none` is any non-nil error — a
syntax error or the `ErrRange` overflow above
`float64OverflowThreshold`.  Per Go's `special`, `inf` and `infinity`
may carry a sign, `nan` may not (a signed NaN spelling is a syntax
error); all are case-insensitive.  In-range finite values are kept
exact (binary64 rounding is not modelled, see the file header). -/
def parseGoFloat (s : String) : Option GoFloat :=
  match s.toList with
  | [] => none
  | cs =>
    let lb := cs.map toLowerCh
    if lb = "inf".toList || lb = "infinity".toList
        || lb = '+' :: "inf".toList || lb = '+' :: "infinity".toList then some (.inf false)
    else if lb = '-' :: "inf".toList || lb = '-' :: "infinity".toList then some (.inf true)
    else if lb = "nan".toList then some .nan
    else if !underscoreOK cs then none
    else
      let cs2 := cs.filter (fun c => c ≠ '_')
      let sp2 := match cs2 with
        | '+' :: t => (false, t)
        | '-' :: t => (true, t)
        | t => (false, t)
      let core : Option (Nat × Nat) := match sp2.2 with
        | '0' :: x :: rest =>
          if toLowerCh x = 'x' then parseHexCore rest
          else parseDecCore sp2.2
        | t => parseDecCore t
      match core with
      | none => none
      | some nd =>
        if float64OverflowThreshold * nd.2 ≤ nd.1 then none
        else some (.fin (if sp2.1 then -(mkRat nd.1 nd.2) else mkRat nd.1 nd.2))

/-! ## Go `encoding/csv` with default options

`GetSensorData` runs `csv.NewReader(...).ReadAll()` with the default
configuration: comma separator, `LazyQuotes = false`,
`TrimLeadingSpace = false`, `FieldsPerRecord = 0` (first record fixes
the expected field count).  The embedding below follows the stdlib
reader: `\r\n` pairs are normalised to `\n`, a trailing `\r` before
end of input is dropped, blank lines are skipped, fields may be
double-quoted with `""` escapes, a bare quote in an unquoted field and
a stray character after a closing quote are errors, and a record whose
field count differs from the first record's is an error.  Recursion is
bounded by a fuel argument that is always sufficient for the inputs
considered; exhaustion is a (never `ok`) error. -/

/-- Errors of the embedded CSV reader. -/
inductive CsvErr where
  | bareQuote : CsvErr
  | quoteErr : CsvErr
  | fieldCount : CsvErr
  | fuelOut : CsvErr
  deriving DecidableEq, Repr

/-- Decidable equality of `Except` results, for evaluating concrete
parses. -/
instance {ε α : Type} [DecidableEq ε] [DecidableEq α] : DecidableEq (Except ε α) := fun x y =>
  match x, y with
  | .ok a, .ok b =>
    if h : a = b then .isTrue (by rw [h]) else .isFalse (by simp [h])
  | .error e, .error f =>
    if h : e = f then .isTrue (by rw [h]) else .isFalse (by simp [h])
  | .ok _, .error _ => .isFalse (by simp)
  | .error _, .ok _ => .isFalse (by simp)

/-- Normalise `\r\n` pairs to `\n` (Go csv `readLine`). -/
def normNewlines : List Char → List Char
  | [] => []
  | '\r' :: '\n' :: rest => '\n' :: normNewlines rest
  | c :: rest => c :: normNewlines rest

/-- Drop a single trailing `\r` before end of input (Go csv `readLine`
at `io.EOF`). -/
def dropTrailingCR (cs : List Char) : List Char :=
  if cs.getLast? = some '\r' then cs.dropLast else cs

/-- Scan a quoted field after its opening quote: `buf` is the content
so far; returns the field, whether more fields follow on this record,
and the remaining input. -/
def parseQuotedAux : Nat → List Char → List Char → Except CsvErr (List Char × Bool × List Char)
  | 0, _, _ => .error .fuelOut
  | fuel + 1, cs, buf =>
    let pre := cs.takeWhile (fun c => c ≠ dquote)
    match cs.dropWhile (fun c => c ≠ dquote) with
    | [] => .error .quoteErr
    | _ :: after =>
      match after with
      | '\n' :: rest => .ok (buf ++ pre, false, rest)
      | ',' :: rest => .ok (buf ++ pre, true, rest)
      | [] => .ok (buf ++ pre, false, [])
      | c :: rest =>
        if c = dquote then parseQuotedAux fuel rest (buf ++ pre ++ [dquote])
        else .error .quoteErr

/-- Parse one record starting at a non-blank position; returns the
fields and the remaining input. -/
def parseRecordAux : Nat → List Char → List String → Except CsvErr (List String × List Char)
  | 0, _, _ => .error .fuelOut
  | fuel + 1, cs, acc =>
    match cs with
    | c :: rest =>
      if c = dquote then
        match parseQuotedAux fuel rest [] with
        | .error e => .error e
        | .ok (field, more, rest2) =>
          if more then parseRecordAux fuel rest2 (String.mk field :: acc)
          else .ok ((String.mk field :: acc).reverse, rest2)
      else
        let pre := cs.takeWhile (fun x => x ≠ ',' && x ≠ '\n')
        if pre.any (fun x => x = dquote) then .error .bareQuote
        else
          match cs.dropWhile (fun x => x ≠ ',' && x ≠ '\n') with
          | ',' :: rest2 => parseRecordAux fuel rest2 (String.mk pre :: acc)
          | '\n' :: rest2 => .ok ((String.mk pre :: acc).reverse, rest2)
          | _ => .ok ((String.mk pre :: acc).reverse, [])
    | [] => .ok ((String.mk [] :: acc).reverse, [])

/-- Read all records: skip blank lines, parse a record, enforce the
field count fixed by the first record (`FieldsPerRecord = 0`). -/
def csvRecordsAux : Nat → List Char → Option Nat → List (List String) →
    Except CsvErr (List (List String))
  | 0, _, _, _ => .error .fuelOut
  | fuel + 1, cs, n, acc =>
    let cs2 := cs.dropWhile (fun c => c = '\n')
    if cs2.isEmpty then .ok acc.reverse
    else
      match parseRecordAux fuel cs2 [] with
      | .error e => .error e
      | .ok (rec, rest) =>
        match n with
        | none => csvRecordsAux fuel rest (some rec.length) (rec :: acc)
        | some k =>
          if rec.length = k then csvRecordsAux fuel rest (some k) (rec :: acc)
          else .error .fieldCount

/-- Go `csv.NewReader(bytes.NewReader(out)).ReadAll()` with default
options. -/
def csvReadAll (s : String) : Except CsvErr (List (List String)) :=
  let cs := dropTrailingCR (normNewlines s.toList)
  csvRecordsAux (2 * cs.length + 8) cs none []

/-! ## Result, errors, sensor records -/

/-- Errors surfaced by the embedded `freeipmi` functions. -/
inductive GoError where
  | notFound (output : String) : GoError
  | cmdError (err : String) (output : String) : GoError
  | parseIntErr (s : String) : GoError
  | parseFloatErr (s : String) : GoError
  | csv (e : CsvErr) : GoError
  deriving DecidableEq, Repr

/-- Rendered error message; only the `notFound` and `cmdError`
renderings are observed by the specification (the others stand for the
respective `strconv`/`csv` messages). -/
def errMsg : GoError → String
  | .notFound output => "could not find value in output: " ++ output
  | .cmdError err output => err ++ ": " ++ output
  | .parseIntErr s => "strconv.ParseInt: parsing " ++ s ++ ": invalid syntax"
  | .parseFloatErr s => "strconv.ParseFloat: parsing " ++ s ++ ": invalid syntax"
  | .csv _ => "csv parse error"

/-- Go `freeipmi.Result`: combined output plus the optional command
error (its message). -/
structure Result where
  output : String
  err : Option String
  deriving DecidableEq, Repr

/-- Go `freeipmi.SensorData`; the Go field `Type` is `Typ` here since
`Type` is a Lean keyword. -/
structure SensorData where
  ID : Int
  Name : String
  Typ : String
  State : String
  Value : GoFloat
  Unit : String
  Event : String
  deriving DecidableEq, Repr

/-- Go `contains(s []int64, elm int64)`. -/
def goContainsInt (s : List Int) (elm : Int) : Bool := s.any (fun a => a = elm)

/-- Go `strings.Trim(s, "'")`: strip all leading and trailing single
quotes. -/
def trimQuotes (s : String) : String :=
  String.mk (((s.toList.dropWhile (fun c => c = squote)).reverse.dropWhile
    (fun c => c = squote)).reverse)

/-- Outcome of `GetSensorData`: success, a Go error together with the
partially filled slice that Go returns alongside it, or a runtime
panic (index out of range on a short CSV record). -/
inductive SensorParseResult where
  | ok (rows : List SensorData) : SensorParseResult
  | err (partialRows : List SensorData) (e : GoError) : SensorParseResult
  | crash : SensorParseResult
  deriving DecidableEq, Repr

/-- The `value` column, lines 199-207 of the `freeipmi` file: `"N/A"`
maps to `NaN`, anything else goes through `strconv.ParseFloat` and a
parse failure aborts. -/
def rowValue (f4 : String) : Except GoError GoFloat :=
  if f4 ≠ "N/A" then
    match parseGoFloat f4 with
    | some v => .ok v
    | none => .error (.parseFloatErr f4)
  else .ok .nan

/-- The per-row loop of `GetSensorData` (lines 184-213).  Index
accesses `line[0]` .. `line[6]` are embedded as shape matches whose
fall-through is `crash`, in the evaluation order of the Go code:
`line[0]`, `ParseInt`, the exclusion check, `line[1]`-`line[4]`, the
value parse, then `line[5]`-`line[6]`. -/
def processRows (excl : List Int) : List (List String) → List SensorData → SensorParseResult
  | [], acc => .ok acc.reverse
  | line :: rest, acc =>
    match line with
    | f0 :: lrest =>
      match parseGoInt f0 with
      | none => .err acc.reverse (.parseIntErr f0)
      | some id =>
        if goContainsInt excl id then processRows excl rest acc
        else
          match lrest with
          | f1 :: f2 :: f3 :: f4 :: lrest2 =>
            match rowValue f4 with
            | .error e => .err acc.reverse e
            | .ok v =>
              match lrest2 with
              | f5 :: f6 :: _ =>
                processRows excl rest
                  (⟨id, f1, f2, f3, v, f5, trimQuotes f6⟩ :: acc)
              | _ => .crash
          | _ => .crash
    | [] => .crash

/-- Go `freeipmi.GetSensorData`. -/
def GetSensorData (ipmiOutput : Result) (excludeSensorIds : List Int) : SensorParseResult :=
  match ipmiOutput.err with
  | some e => .err [] (.cmdError e ipmiOutput.output)
  | none =>
    match csvReadAll ipmiOutput.output with
    | .error e => .err [] (.csv e)
    | .ok rows => processRows excludeSensorIds rows []

/-! ## Single-value extraction (`getValue` and the line regexes)

Each package-level regex is anchored (`^`), captures one group named
`value`, and is embedded as a per-line matcher returning the captured
value.  For these patterns greedy matching is deterministic: every
star is over a character class disjoint from the literal that follows
it, so the maximal-munch scan below coincides with the regex engine's
leftmost-first semantics. -/

/-- Matcher for `^Firmware Revision\s*:\s*(?P<value>[0-9.]*).*`. -/
def bmcFirmwareMatch (line : String) : Option String :=
  match stripPrefixL "Firmware Revision".toList line.toList with
  | none => none
  | some r =>
    match r.dropWhile isGoSpace with
    | ':' :: r2 => some (String.mk ((r2.dropWhile isGoSpace).takeWhile isValChar))
    | _ => none

/-- Matcher for `^Manufacturer ID\s*:\s*(?P<value>.*)`. -/
def bmcManufacturerMatch (line : String) : Option String :=
  match stripPrefixL "Manufacturer ID".toList line.toList with
  | none => none
  | some r =>
    match r.dropWhile isGoSpace with
    | ':' :: r2 => some (String.mk (r2.dropWhile isGoSpace))
    | _ => none

/-- Matcher for `^Current Power\s*:\s*(?P<value>[0-9.]*)\s*Watts.*`. -/
def dcmiPowerMatch (line : String) : Option String :=
  match stripPrefixL "Current Power".toList line.toList with
  | none => none
  | some r =>
    match r.dropWhile isGoSpace with
    | ':' :: r2 =>
      let r3 := r2.dropWhile isGoSpace
      let cap := r3.takeWhile isValChar
      match stripPrefixL "Watts".toList ((r3.dropWhile isValChar).dropWhile isGoSpace) with
      | some _ => some (String.mk cap)
      | none => none
    | _ => none

/-- Helper for `splitLines`: accumulate the current line (reversed). -/
def splitLinesAux : List Char → List Char → List String
  | [], cur => [String.mk cur.reverse]
  | c :: rest, cur =>
    if c = '\n' then String.mk cur.reverse :: splitLinesAux rest []
    else splitLinesAux rest (c :: cur)

/-- Go `strings.Split(s, "\n")`: the substrings between newlines,
empty pieces kept, `[""]` for the empty string. -/
def splitLines (s : String) : List String := splitLinesAux s.toList []

/-- The loop body of `getValue`: first line whose matcher fires wins. -/
def getValueLines : List String → (String → Option String) → Option String
  | [], _ => none
  | l :: ls, pat =>
    match pat l with
    | some v => some v
    | none => getValueLines ls pat

/-- Go `freeipmi.getValue` (lines 107-121): split the output on `\n`,
return the first captured value, else a not-found error carrying the
full raw output. -/
def getValue (ipmiOutput : String) (pat : String → Option String) : Except GoError String :=
  match getValueLines (splitLines ipmiOutput) pat with
  | some v => .ok v
  | none => .error (.notFound ipmiOutput)

/-- Go `freeipmi.GetBMCInfoFirmwareRevision` (lines 242-254): try the
extraction first, surface the wrapped command error only if the
extraction also failed. -/
def GetBMCInfoFirmwareRevision (ipmiOutput : Result) : String × Option GoError :=
  match getValue ipmiOutput.output bmcFirmwareMatch with
  | .ok v => (v, none)
  | .error e =>
    match ipmiOutput.err with
    | some ce => ("", some (.cmdError ce ipmiOutput.output))
    | none => ("", some e)

/-- Go `freeipmi.GetBMCInfoManufacturerID` (lines 256-268), same
recovery policy as the firmware revision. -/
def GetBMCInfoManufacturerID (ipmiOutput : Result) : String × Option GoError :=
  match getValue ipmiOutput.output bmcManufacturerMatch with
  | .ok v => (v, none)
  | .error e =>
    match ipmiOutput.err with
    | some ce => ("", some (.cmdError ce ipmiOutput.output))
    | none => ("", some e)

/-- Go `freeipmi.GetCurrentPowerConsumption` (lines 217-226). -/
def GetCurrentPowerConsumption (ipmiOutput : Result) : GoFloat × Option GoError :=
  match ipmiOutput.err with
  | some e => (.fin (-1), some (.cmdError e ipmiOutput.output))
  | none =>
    match getValue ipmiOutput.output dcmiPowerMatch with
    | .error e => (.fin (-1), some e)
    | .ok v =>
      match parseGoFloat v with
      | some f => (f, none)
      | none => (.fin 0, some (.parseFloatErr v))

/-! ## SDR cache lifecycle (`flushSensorSDRCache`, collector.go 126-156)

`nextTick` is `time.Date(now.Year(), now.Month(), now.Day(), 0,0,0,0)`:
midnight of the current local day, so its year/month/day equal today's.
Directory entries are a name plus the `os.Stat` outcome; a stat
failure is logged and skipped.  The returned list holds one entry (the
file name) per `--flush-cache` invocation issued. -/

/-- The date components the staleness check reads (`time.Time.Year`,
`.Month` as 1-12, `.Day`). -/
structure GoDate where
  year : Int
  month : Int
  day : Int
  deriving DecidableEq, Repr

/-- The staleness test on line 149:
`nextTick.Day()-modTime.Day() > 0 || nextTick.Month() != modTime.Month()`. -/
def sdrStale (nextTick modTime : GoDate) : Bool :=
  decide (nextTick.day - modTime.day > 0) || decide (nextTick.month ≠ modTime.month)

/-- A directory entry of the SDR cache directory: file name and the
result of `os.Stat` (`none` models a stat failure, which is skipped). -/
structure CacheFile where
  name : String
  stat : Option GoDate

/-- Go `flushSensorSDRCache`, as the list of forced `--flush-cache`
invocations (identified by file name) it issues for the given
directory listing and current day. -/
def flushSensorSDRCache (host : String) (files : List CacheFile) (nextTick : GoDate) :
    List String :=
  files.foldl
    (fun acc f =>
      if goContains f.name host then
        match f.stat with
        | none => acc
        | some modTime => if sdrStale nextTick modTime then acc ++ [f.name] else acc
      else acc)
    []

/-- Predicate version of the loop guard: the file name matches the
target host and the staleness test fires. -/
def matchingStale (host : String) (nextTick : GoDate) (f : CacheFile) : Bool :=
  goContains f.name host &&
    match f.stat with
    | some modTime => sdrStale nextTick modTime
    | none => false

/-! ## Scrape orchestrator (`metaCollector.Collect`, collector.go 85-117)

The prometheus channel is embedded as the list of emitted metrics, in
emission order.  A collector's own samples are opaque tags (the real
collectors emit only family-specific gauges, never the `ipmi_up`
family); the up/down indicator and the final scrape-duration metric
are explicit. -/

/-- A metric sent on the channel. -/
inductive Metric where
  | up (collector : String) (v : Int) : Metric
  | duration : Metric
  | sample (tag : String) : Metric
  deriving DecidableEq, Repr

/-- One entry of `config.GetCollectors()`: the `collector` interface
(`Name`, `Cmd`, `Args`, `Collect`).  `collect` returns the up flag and
the sample metrics that `Collect` writes to the channel. -/
structure CollectorSpec where
  name : String
  cmd : String
  args : List String
  collect : Result → Int × List String

/-- The execution subsystem as seen by the orchestrator: `Execute`
keyed by command, arguments, config and target. -/
structure ExecEnv where
  run : String → List String → String → String → Result

/-- The loop of `metaCollector.Collect` (lines 104-116) plus the
deferred duration metric: for each enabled collector, in configuration
order, execute, collect, and mark the collector up or down. -/
def metaCollect (collectors : List CollectorSpec) (env : ExecEnv) (cfg target : String) :
    List Metric :=
  (collectors.foldl
    (fun acc c =>
      let result := env.run c.cmd c.args cfg target
      let r := c.collect result
      acc ++ r.2.map Metric.sample ++ [Metric.up c.name r.1])
    []) ++ [Metric.duration]

/-- Project the up/down indicators out of an emitted metric list. -/
def upOf : Metric → Option (String × Int)
  | .up n v => some (n, v)
  | _ => none

/-! ## Specification-side row helpers -/

/-- The record the per-row loop builds from a well-formed seven-field
row, `none` when the row is not seven fields or a numeric field is
malformed. -/
def rowRecord? (r : List String) : Option SensorData :=
  match r with
  | [f0, f1, f2, f3, f4, f5, f6] =>
    match parseGoInt f0, rowValue f4 with
    | some id, .ok v => some ⟨id, f1, f2, f3, v, f5, trimQuotes f6⟩
    | _, _ => none
  | _ => none

/-- A row that trips a numeric parse error in the loop: its id field
is a malformed integer, or it survives the exclusion check and its
value field is a malformed decimal other than `"N/A"`. -/
def badNumericRow (excl : List Int) (r : List String) : Bool :=
  match r with
  | f0 :: rest =>
    match parseGoInt f0 with
    | none => true
    | some id =>
      !goContainsInt excl id &&
        (match rest with
         | _ :: _ :: _ :: f4 :: _ => f4 ≠ "N/A" && (parseGoFloat f4).isNone
         | _ => false)
  | [] => false

/-! ## Helper lemmas -/

/-- The flush loop, run from any accumulator, appends exactly the
matching stale file names. -/
theorem flush_foldl_eq (host : String) (tick : GoDate) (files : List CacheFile)
    (acc : List String) :
    files.foldl
      (fun acc f =>
        if goContains f.name host then
          match f.stat with
          | none => acc
          | some modTime => if sdrStale tick modTime then acc ++ [f.name] else acc
        else acc)
      acc
      = acc ++ (files.filter (matchingStale host tick)).map (fun f => f.name) := by
  induction files generalizing acc with
  | nil => simp
  | cons f fs ih =>
    simp only [List.foldl_cons]
    by_cases hc : goContains f.name host
    · cases hs : f.stat with
      | none =>
        simp [hc, hs, ih, matchingStale, List.filter_cons]
      | some modTime =>
        by_cases hstale : sdrStale tick modTime
        · simp [hc, hs, hstale, ih, matchingStale, List.filter_cons]
        · simp [hc, hs, hstale, ih, matchingStale, List.filter_cons]
    · simp [hc, ih, matchingStale, List.filter_cons]

/-- First matching line wins in the `getValue` loop. -/
theorem getValueLines_first (pat : String → Option String) (pre post : List String)
    (l : String) (v : String) (hpre : ∀ l' ∈ pre, pat l' = none) (hl : pat l = some v) :
    getValueLines (pre ++ l :: post) pat = some v := by
  induction pre with
  | nil => simp [getValueLines, hl]
  | cons p ps ih =>
    have hp : pat p = none := hpre p (by simp)
    simp only [List.cons_append, getValueLines, hp]
    exact ih fun l' hmem => hpre l' (by simp [hmem])

/-- When no line matches, the `getValue` loop finds nothing. -/
theorem getValueLines_none (pat : String → Option String) (ls : List String)
    (h : ∀ l ∈ ls, pat l = none) : getValueLines ls pat = none := by
  induction ls with
  | nil => rfl
  | cons l ls ih =>
    have hl : pat l = none := h l (by simp)
    simp only [getValueLines, hl]
    exact ih fun l' hmem => h l' (by simp [hmem])

/-- The orchestrator loop, run from any accumulator, appends exactly
one up/down indicator per collector, in order. -/
theorem metaCollect_fold_upOf (env : ExecEnv) (cfg target : String)
    (collectors : List CollectorSpec) (acc : List Metric) :
    (collectors.foldl
      (fun acc c =>
        let result := env.run c.cmd c.args cfg target
        let r := c.collect result
        acc ++ r.2.map Metric.sample ++ [Metric.up c.name r.1])
      acc).filterMap upOf
      = acc.filterMap upOf
        ++ collectors.map (fun c => (c.name, (c.collect (env.run c.cmd c.args cfg target)).1)) := by
  induction collectors generalizing acc with
  | nil => simp
  | cons c cs ih =>
    simp only [List.foldl_cons, List.map_cons, ih]
    simp [List.filterMap_append, List.filterMap_map, upOf]

/-- A list of length at least seven starts with seven explicit
elements. -/
theorem exists_of_seven_le {α : Type} (r : List α) (h : 7 ≤ r.length) :
    ∃ a0 a1 a2 a3 a4 a5 a6 t, r = a0 :: a1 :: a2 :: a3 :: a4 :: a5 :: a6 :: t := by
  match r, h with
  | a0 :: a1 :: a2 :: a3 :: a4 :: a5 :: a6 :: t, _ =>
    exact ⟨a0, a1, a2, a3, a4, a5, a6, t, rfl⟩

/-- A list of length exactly seven is seven explicit elements. -/
theorem exists_of_len7 {α : Type} (r : List α) (h : r.length = 7) :
    ∃ a0 a1 a2 a3 a4 a5 a6, r = [a0, a1, a2, a3, a4, a5, a6] := by
  obtain ⟨a0, a1, a2, a3, a4, a5, a6, t, rfl⟩ := exists_of_seven_le r (by omega)
  have : t = [] := by
    simp only [List.length_cons] at h
    exact List.eq_nil_of_length_eq_zero (by omega)
  exact ⟨a0, a1, a2, a3, a4, a5, a6, by simp [this]⟩

/-- Unfolding of a successful `rowRecord?`. -/
theorem rowRecord?_eq_some (r : List String) (d : SensorData)
    (h : rowRecord? r = some d) :
    ∃ f0 f1 f2 f3 f4 f5 f6 id v,
      r = [f0, f1, f2, f3, f4, f5, f6] ∧ parseGoInt f0 = some id ∧ rowValue f4 = .ok v ∧
        d = ⟨id, f1, f2, f3, v, f5, trimQuotes f6⟩ := by
  match r with
  | [] => simp [rowRecord?] at h
  | [_] => simp [rowRecord?] at h
  | [_, _] => simp [rowRecord?] at h
  | [_, _, _] => simp [rowRecord?] at h
  | [_, _, _, _] => simp [rowRecord?] at h
  | [_, _, _, _, _] => simp [rowRecord?] at h
  | [_, _, _, _, _, _] => simp [rowRecord?] at h
  | f0 :: f1 :: f2 :: f3 :: f4 :: f5 :: f6 :: f7 :: t => simp [rowRecord?] at h
  | [f0, f1, f2, f3, f4, f5, f6] =>
    simp only [rowRecord?] at h
    cases hid : parseGoInt f0 with
    | none => rw [hid] at h; simp at h
    | some id =>
      cases hv : rowValue f4 with
      | error e => rw [hid, hv] at h; simp at h
      | ok v =>
        rw [hid, hv] at h
        simp only [Option.some.injEq] at h
        exact ⟨f0, f1, f2, f3, f4, f5, f6, id, v, rfl, hid, hv, h.symm⟩

/-- Once the expected field count is fixed, every record the reader
returns has that count. -/
theorem csvRecordsAux_uniform (fuel : Nat) :
    ∀ cs k acc out, (∀ r ∈ acc, r.length = k) →
      csvRecordsAux fuel cs (some k) acc = .ok out → ∀ r ∈ out, r.length = k := by
  induction fuel with
  | zero => intro cs k acc out _ h; simp [csvRecordsAux] at h
  | succ fuel ih =>
    intro cs k acc out hacc h
    simp only [csvRecordsAux] at h
    by_cases he : (cs.dropWhile (fun c => c = '\n')).isEmpty
    · rw [if_pos he] at h
      simp only [Except.ok.injEq] at h
      subst h
      intro r hr
      exact hacc r (List.mem_reverse.mp hr)
    · rw [if_neg he] at h
      cases hp : parseRecordAux fuel (cs.dropWhile (fun c => c = '\n')) [] with
      | error e => simp [hp] at h
      | ok p =>
        obtain ⟨rec, rest⟩ := p
        simp only [hp] at h
        by_cases hk : rec.length = k
        · rw [if_pos hk] at h
          refine ih rest k (rec :: acc) out ?_ h
          intro r hr
          rcases List.mem_cons.mp hr with hr | hr
          · rw [hr]; exact hk
          · exact hacc r hr
        · rw [if_neg hk] at h; simp at h

/-- A successful `ReadAll` returns records of one uniform field
count: a record whose count differs from the first record's is an
error, never returned. -/
theorem csvReadAll_uniform (s : String) (rows : List (List String))
    (h : csvReadAll s = .ok rows) :
    ∀ r1 ∈ rows, ∀ r2 ∈ rows, r1.length = r2.length := by
  simp only [csvReadAll] at h
  set cs := dropTrailingCR (normNewlines s.toList) with hcs
  rcases hf : 2 * cs.length + 8 with _ | fuel
  · exact absurd hf (by omega)
  · rw [hf] at h
    simp only [csvRecordsAux] at h
    by_cases he : (cs.dropWhile (fun c => c = '\n')).isEmpty
    · rw [if_pos he] at h
      simp only [Except.ok.injEq] at h
      subst h
      simp
    · rw [if_neg he] at h
      cases hp : parseRecordAux fuel (cs.dropWhile (fun c => c = '\n')) [] with
      | error e => simp [hp] at h
      | ok p =>
        obtain ⟨rec, rest⟩ := p
        simp only [hp] at h
        have huni := csvRecordsAux_uniform fuel rest rec.length [rec] rows
          (by intro r hr; simp at hr; rw [hr]) h
        intro r1 h1 r2 h2
        rw [huni r1 h1, huni r2 h2]

/-- The per-row loop never panics on rows of at least seven fields. -/
theorem processRows_no_crash (excl : List Int) :
    ∀ rows acc, (∀ r ∈ rows, 7 ≤ r.length) → processRows excl rows acc ≠ .crash := by
  intro rows
  induction rows with
  | nil => intro acc _ h; simp [processRows] at h
  | cons a rest ih =>
    intro acc hlen h
    obtain ⟨a0, a1, a2, a3, a4, a5, a6, t, rfl⟩ :=
      exists_of_seven_le a (hlen a (by simp))
    cases hid : parseGoInt a0 with
    | none =>
      rw [show processRows excl ((a0 :: a1 :: a2 :: a3 :: a4 :: a5 :: a6 :: t) :: rest) acc
          = .err acc.reverse (.parseIntErr a0) by simp [processRows, hid]] at h
      exact SensorParseResult.noConfusion h
    | some id =>
      by_cases hex : goContainsInt excl id = true
      · rw [show processRows excl ((a0 :: a1 :: a2 :: a3 :: a4 :: a5 :: a6 :: t) :: rest) acc
            = processRows excl rest acc by simp [processRows, hid, hex]] at h
        exact ih acc (fun r hr => hlen r (by simp [hr])) h
      · cases hv : rowValue a4 with
        | error e =>
          rw [show processRows excl ((a0 :: a1 :: a2 :: a3 :: a4 :: a5 :: a6 :: t) :: rest) acc
              = .err acc.reverse e by simp [processRows, hid, hex, hv]] at h
          exact SensorParseResult.noConfusion h
        | ok v =>
          rw [show processRows excl ((a0 :: a1 :: a2 :: a3 :: a4 :: a5 :: a6 :: t) :: rest) acc
              = processRows excl rest
                  (⟨id, a1, a2, a3, v, a5, trimQuotes a6⟩ :: acc) by
                simp [processRows, hid, hex, hv]] at h
          exact ih _ (fun r hr => hlen r (by simp [hr])) h

/-- On a table of well-formed rows the loop returns exactly the
non-excluded records, appended after the reversed accumulator. -/
theorem processRows_wellFormed (excl : List Int) :
    ∀ rows acc, (∀ r ∈ rows, (rowRecord? r).isSome = true) →
      processRows excl rows acc
        = .ok (acc.reverse ++ rows.filterMap
            (fun r => (rowRecord? r).bind
              (fun d => if goContainsInt excl d.ID then none else some d))) := by
  intro rows
  induction rows with
  | nil => intro acc _; simp [processRows]
  | cons a rest ih =>
    intro acc hwf
    obtain ⟨d, hd⟩ := Option.isSome_iff_exists.mp (hwf a (by simp))
    obtain ⟨f0, f1, f2, f3, f4, f5, f6, id, v, rfl, hid, hv, rfl⟩ :=
      rowRecord?_eq_some a d hd
    have hrest : ∀ r ∈ rest, (rowRecord? r).isSome = true :=
      fun r hr => hwf r (by simp [hr])
    simp only [processRows, hid, hv]
    by_cases hex : goContainsInt excl id
    · rw [if_pos hex, ih acc hrest]
      simp [List.filterMap_cons, hd, hex]
    · rw [if_neg hex, ih _ hrest]
      simp [List.filterMap_cons, hd, hex]

/-- A table containing a numeric-parse-error row makes the loop
return a Go error (possibly one from an even earlier bad row). -/
theorem processRows_badNumeric (excl : List Int) :
    ∀ rows acc, (∀ r ∈ rows, r.length = 7) →
      (∃ r ∈ rows, badNumericRow excl r = true) →
      ∃ part e, processRows excl rows acc = .err part e := by
  intro rows
  induction rows with
  | nil => intro acc _ hbad; simp at hbad
  | cons a rest ih =>
    intro acc hlen hbad
    obtain ⟨a0, a1, a2, a3, a4, a5, a6, rfl⟩ := exists_of_len7 a (hlen a (by simp))
    have hrest : ∀ r ∈ rest, r.length = 7 := fun r hr => hlen r (by simp [hr])
    cases hid : parseGoInt a0 with
    | none =>
      exact ⟨acc.reverse, .parseIntErr a0, by simp [processRows, hid]⟩
    | some id =>
      by_cases hex : goContainsInt excl id = true
      · rw [show processRows excl ([a0, a1, a2, a3, a4, a5, a6] :: rest) acc
            = processRows excl rest acc by simp [processRows, hid, hex]]
        refine ih acc hrest ?_
        rcases hbad with ⟨r, hr, hbr⟩
        rcases List.mem_cons.mp hr with rfl | hr
        · exfalso
          simp [badNumericRow, hid, hex] at hbr
        · exact ⟨r, hr, hbr⟩
      · cases hv : rowValue a4 with
        | error e =>
          exact ⟨acc.reverse, e, by simp [processRows, hid, hex, hv]⟩
        | ok v =>
          rw [show processRows excl ([a0, a1, a2, a3, a4, a5, a6] :: rest) acc
              = processRows excl rest
                  (⟨id, a1, a2, a3, v, a5, trimQuotes a6⟩ :: acc) by
                simp [processRows, hid, hex, hv]]
          refine ih _ hrest ?_
          rcases hbad with ⟨r, hr, hbr⟩
          rcases List.mem_cons.mp hr with rfl | hr
          · exfalso
            simp only [badNumericRow, hid, hex, Bool.not_false, Bool.true_and] at hbr
            simp only [rowValue] at hv
            simp only [Bool.and_eq_true] at hbr
            obtain ⟨hna, hnone⟩ := hbr
            rw [if_pos (by simpa using hna)] at hv
            rw [Option.isNone_iff_eq_none.mp hnone] at hv
            exact Except.noConfusion hv
          · exact ⟨r, hr, hbr⟩

/-- Skipping an excluded row leaves the loop's result unchanged. -/
theorem processRows_skip_excluded (excl : List Int) (f0 : String) (t : List String)
    (id : Int) (hid : parseGoInt f0 = some id) (hex : goContainsInt excl id = true) :
    ∀ pre post acc,
      processRows excl (pre ++ (f0 :: t) :: post) acc = processRows excl (pre ++ post) acc := by
  intro pre
  induction pre with
  | nil => intro post acc; simp [processRows, hid, hex]
  | cons p pre ih =>
    intro post acc
    cases p with
    | nil => simp [processRows]
    | cons p0 pt =>
      cases hpp : parseGoInt p0 with
      | none => simp [processRows, hpp]
      | some pid =>
        by_cases hpex : goContainsInt excl pid = true
        · simp only [List.cons_append, processRows, hpp, hpex, if_true]
          exact ih post acc
        · cases pt with
          | nil => simp [processRows, hpp, hpex]
          | cons q1 qt1 =>
            cases qt1 with
            | nil => simp [processRows, hpp, hpex]
            | cons q2 qt2 =>
              cases qt2 with
              | nil => simp [processRows, hpp, hpex]
              | cons q3 qt3 =>
                cases qt3 with
                | nil => simp [processRows, hpp, hpex]
                | cons q4 qt4 =>
                  cases hv : rowValue q4 with
                  | error e => simp [processRows, hpp, hpex, hv]
                  | ok v =>
                    cases qt4 with
                    | nil => simp [processRows, hpp, hpex, hv]
                    | cons q5 qt5 =>
                      cases qt5 with
                      | nil => simp [processRows, hpp, hpex, hv]
                      | cons q6 qt6 =>
                        simp only [List.cons_append, processRows, hpp, hpex, if_false, hv]
                        exact ih post _

/-! ## Claim theorems -/

/-- C1: for every matching SDR cache file, `flushSensorSDRCache`
issues exactly one `--flush-cache` invocation when the staleness test
fires (in particular whenever the file's month differs from the
current month, which covers a strictly earlier month) and none
otherwise (in particular for a file modified today or later in the
same month); and the staleness test holds iff the file's month
differs from the current month, or its day-of-month is strictly
earlier under the same month. -/
theorem claim_C1_sdr_cache_flush (host : String) (files : List CacheFile) (tick : GoDate) :
    flushSensorSDRCache host files tick
      = (files.filter (matchingStale host tick)).map (fun f => f.name)
    ∧ (∀ m : GoDate, sdrStale tick m = true ↔
        (tick.month ≠ m.month ∨ (tick.month = m.month ∧ m.day < tick.day)))
    ∧ (∀ m : GoDate, m.month ≠ tick.month → sdrStale tick m = true)
    ∧ (∀ m : GoDate, m.month = tick.month → tick.day ≤ m.day → sdrStale tick m = false) := by
  refine ⟨by simpa using flush_foldl_eq host tick files [], ?_, ?_, ?_⟩
  · intro m
    simp only [sdrStale, Bool.or_eq_true, decide_eq_true_eq]
    omega
  · intro m h
    simp only [sdrStale, Bool.or_eq_true, decide_eq_true_eq]
    omega
  · intro m h1 h2
    simp only [sdrStale, Bool.or_eq_false_iff, decide_eq_false_iff_not]
    omega

/-- Witness for C1 at concrete dates: a file from an earlier month is
flushed once, a file modified today or later in the same month is
not stale. -/
theorem claim_C1_sdr_cache_flush_witness :
    flushSensorSDRCache "h1" [⟨"sdr-h1-cache", some ⟨2026, 9, 30⟩⟩] ⟨2026, 10, 11⟩
      = ["sdr-h1-cache"]
    ∧ sdrStale ⟨2026, 10, 11⟩ ⟨2026, 9, 30⟩ = true
    ∧ sdrStale ⟨2026, 10, 11⟩ ⟨2026, 10, 11⟩ = false
    ∧ sdrStale ⟨2026, 10, 11⟩ ⟨2026, 10, 20⟩ = false := by
  refine ⟨?_, ?_, ?_, ?_⟩
  · rw [(claim_C1_sdr_cache_flush "h1" [⟨"sdr-h1-cache", some ⟨2026, 9, 30⟩⟩] ⟨2026, 10, 11⟩).1]
    decide
  · exact (claim_C1_sdr_cache_flush "h1" [] ⟨2026, 10, 11⟩).2.2.1 ⟨2026, 9, 30⟩ (by decide)
  · exact (claim_C1_sdr_cache_flush "h1" [] ⟨2026, 10, 11⟩).2.2.2 ⟨2026, 10, 11⟩ rfl (by decide)
  · exact (claim_C1_sdr_cache_flush "h1" [] ⟨2026, 10, 11⟩).2.2.2 ⟨2026, 10, 20⟩ rfl (by decide)

/-- C2: for a `Result` carrying a non-zero-exit command error, the BMC
identity extractors (firmware revision, manufacturer ID) return the
first captured value with no error when some output line matches the
field's pattern, and return the wrapped original command error when no
line matches. -/
theorem claim_C2_bmc_identity_recovery (output ce : String) :
    (∀ v, getValueLines (splitLines output) bmcFirmwareMatch = some v →
       GetBMCInfoFirmwareRevision ⟨output, some ce⟩ = (v, none))
    ∧ (getValueLines (splitLines output) bmcFirmwareMatch = none →
       GetBMCInfoFirmwareRevision ⟨output, some ce⟩ = ("", some (.cmdError ce output)))
    ∧ (∀ v, getValueLines (splitLines output) bmcManufacturerMatch = some v →
       GetBMCInfoManufacturerID ⟨output, some ce⟩ = (v, none))
    ∧ (getValueLines (splitLines output) bmcManufacturerMatch = none →
       GetBMCInfoManufacturerID ⟨output, some ce⟩ = ("", some (.cmdError ce output))) := by
  refine ⟨?_, ?_, ?_, ?_⟩
  · intro v h
    simp [GetBMCInfoFirmwareRevision, getValue, h]
  · intro h
    simp [GetBMCInfoFirmwareRevision, getValue, h]
  · intro v h
    simp [GetBMCInfoManufacturerID, getValue, h]
  · intro h
    simp [GetBMCInfoManufacturerID, getValue, h]

/-- Witness for C2: a failing `bmc-info` run whose output still
contains the firmware-revision line yields the revision with no
error; one with no matching line yields the wrapped command error. -/
theorem claim_C2_bmc_identity_recovery_witness :
    GetBMCInfoFirmwareRevision
        ⟨"Firmware Revision : 1.23\nManufacturer ID : Foo Inc", some "exit status 1"⟩
      = ("1.23", none)
    ∧ GetBMCInfoManufacturerID
        ⟨"Firmware Revision : 1.23\nManufacturer ID : Foo Inc", some "exit status 1"⟩
      = ("Foo Inc", none)
    ∧ GetBMCInfoFirmwareRevision ⟨"garbage", some "exit status 1"⟩
      = ("", some (.cmdError "exit status 1" "garbage")) := by
  refine ⟨?_, ?_, ?_⟩
  · exact (claim_C2_bmc_identity_recovery
      "Firmware Revision : 1.23\nManufacturer ID : Foo Inc" "exit status 1").1
      "1.23" (by decide)
  · exact (claim_C2_bmc_identity_recovery
      "Firmware Revision : 1.23\nManufacturer ID : Foo Inc" "exit status 1").2.2.1
      "Foo Inc" (by decide)
  · exact (claim_C2_bmc_identity_recovery "garbage" "exit status 1").2.1 (by decide)

/-- C3: the scrape orchestrator runs every enabled collector in
configuration order and the emitted metrics contain exactly one
up/down indicator per collector, labelled with that collector's name
and carrying that collector's own up flag; each entry depends only on
its own collector, so no failure prevents a later collector's
indicator. -/
theorem claim_C3_collector_isolation (collectors : List CollectorSpec) (env : ExecEnv)
    (cfg target : String) :
    (metaCollect collectors env cfg target).filterMap upOf
      = collectors.map (fun c => (c.name, (c.collect (env.run c.cmd c.args cfg target)).1)) := by
  simp only [metaCollect, List.filterMap_append]
  rw [metaCollect_fold_upOf]
  simp [upOf]

/-- C4 counterexample: on a uniformly three-field table the extraction
neither returns a value nor escalates a parse error: it hits an index
out of range (a runtime panic), refuting totality. -/
theorem claim_C4_counterexample :
    GetSensorData ⟨"12,Fan1,Fan", none⟩ [] = .crash := by decide

/-- C4 (amended): the CSV layer escalates a record whose field count
differs from the first record's as a parse error (a successful
`ReadAll` is always uniform), and the row loop never faults on rows
of at least seven fields; but a table whose rows uniformly have fewer
than seven fields causes an out-of-bounds access instead of a parse
error, so the extraction is not total. -/
theorem claim_C4_amended :
    (∀ s rows, csvReadAll s = .ok rows → ∀ r1 ∈ rows, ∀ r2 ∈ rows, r1.length = r2.length)
    ∧ (∀ excl rows acc, (∀ r ∈ rows, 7 ≤ r.length) → processRows excl rows acc ≠ .crash)
    ∧ processRows [] [["12", "Fan1", "Fan"]] [] = .crash :=
  ⟨csvReadAll_uniform, fun excl => processRows_no_crash excl, by decide⟩

/-- Witness for C4 (amended) at concrete inputs. -/
theorem claim_C4_amended_witness :
    (["a", "b"] : List String).length = (["c", "d"] : List String).length
    ∧ processRows [] [["1", "a", "b", "c", "5", "u", "'e'"]] [] ≠ .crash := by
  constructor
  · exact claim_C4_amended.1 "a,b\nc,d" [["a", "b"], ["c", "d"]] (by decide)
      ["a", "b"] (by decide) ["c", "d"] (by decide)
  · exact claim_C4_amended.2.1 [] [["1", "a", "b", "c", "5", "u", "'e'"]] [] (by decide)

/-- C5 counterexample: a table containing a row with malformed value
field `"xx"` (not `"N/A"`) parses without error when that row's id is
in the exclusion set, refuting the claim as universally stated. -/
theorem claim_C5_counterexample :
    GetSensorData ⟨"12,a,b,c,xx,u,'e'", none⟩ [12] = .ok []
    ∧ parseGoFloat "xx" = none ∧ ("xx" : String) ≠ "N/A" := by decide

/-- C5 (amended): for every seven-column table containing a row whose
id field is a malformed integer, or a row whose id is not in the
exclusion-ID set and whose value field is a malformed decimal other
than `"N/A"`, extraction aborts the whole parse with an error — no
partial-row recovery within the table. -/
theorem claim_C5_amended (excl : List Int) (rows : List (List String))
    (h7 : ∀ r ∈ rows, r.length = 7)
    (hbad : ∃ r ∈ rows, badNumericRow excl r = true) :
    ∃ part e, processRows excl rows [] = .err part e :=
  processRows_badNumeric excl rows [] h7 hbad

/-- Witness for C5 (amended): a non-excluded row with malformed value
field aborts the parse. -/
theorem claim_C5_amended_witness :
    ∃ part e, processRows [] [["1", "a", "b", "c", "xx", "u", "'e'"]] [] = .err part e :=
  claim_C5_amended [] [["1", "a", "b", "c", "xx", "u", "'e'"]] (by decide) (by decide)

/-- C6: tabular extraction of the single row
`12,Fan1,Fan,Nominal,3200,RPM,'OK'` with no exclusions and a
successful `Result` yields exactly one record with id 12, name
`Fan1`, type `Fan`, state `Nominal`, value 3200, unit `RPM`, and the
event `OK` with the surrounding single quotes stripped. -/
theorem claim_C6_tabular_row :
    GetSensorData ⟨"12,Fan1,Fan,Nominal,3200,RPM,'OK'", none⟩ []
      = .ok [{ ID := 12, Name := "Fan1", Typ := "Fan", State := "Nominal",
               Value := .fin 3200, Unit := "RPM", Event := "OK" }] := by decide

/-- C7 counterexample: a row whose value field is the string `nan`
(not the literal `"N/A"`) also produces a `NaN` record value without
failing the parse, refuting “`NaN` exactly when the field is `N/A`”. -/
theorem claim_C7_counterexample :
    GetSensorData ⟨"1,a,b,c,nan,u,'e'", none⟩ []
      = .ok [{ ID := 1, Name := "a", Typ := "b", State := "c",
               Value := .nan, Unit := "u", Event := "e" }]
    ∧ ("nan" : String) ≠ "N/A" := by decide

/-- C7 (amended): a row with value field `"N/A"` yields a `NaN` value
and does not fail the parse; and a parsed record's value is `NaN` iff
the row's value field was `"N/A"` or was itself a NaN spelling
accepted by `strconv.ParseFloat` (such as `nan`). -/
theorem claim_C7_amended (excl : List Int) (f0 f1 f2 f3 f4 f5 f6 : String) (id : Int)
    (hid : parseGoInt f0 = some id) (hex : goContainsInt excl id = false) :
    (f4 = "N/A" →
      processRows excl [[f0, f1, f2, f3, f4, f5, f6]] []
        = .ok [⟨id, f1, f2, f3, .nan, f5, trimQuotes f6⟩])
    ∧ (∀ rec, processRows excl [[f0, f1, f2, f3, f4, f5, f6]] [] = .ok [rec] →
        (rec.Value = .nan ↔ (f4 = "N/A" ∨ parseGoFloat f4 = some .nan))) := by
  constructor
  · intro hna
    subst hna
    simp [processRows, hid, hex, rowValue]
  · intro rec hrec
    cases hv : rowValue f4 with
    | error e =>
      simp [processRows, hid, hex, hv] at hrec
    | ok v =>
      have : processRows excl [[f0, f1, f2, f3, f4, f5, f6]] []
          = .ok [⟨id, f1, f2, f3, v, f5, trimQuotes f6⟩] := by
        simp [processRows, hid, hex, hv]
      rw [this] at hrec
      simp only [SensorParseResult.ok.injEq, List.cons.injEq, and_true] at hrec
      subst hrec
      by_cases hna : f4 = "N/A"
      · rw [hna] at hv
        simp [rowValue] at hv
        subst hv
        simp [hna]
      · simp only [rowValue, if_pos hna] at hv
        cases hpf : parseGoFloat f4 with
        | none => rw [hpf] at hv; exact Except.noConfusion hv
        | some w =>
          rw [hpf] at hv
          simp only [Except.ok.injEq] at hv
          subst hv
          simp [hna, hpf]

/-- Witness for C7 (amended): an `N/A` row parses to a `NaN` record. -/
theorem claim_C7_amended_witness :
    processRows [] [["1", "a", "b", "c", "N/A", "u", "'e'"]] []
      = .ok [⟨1, "a", "b", "c", .nan, "u", "e"⟩] := by
  have h := (claim_C7_amended [] "1" "a" "b" "c" "N/A" "u" "'e'" 1
    (by decide) (by decide)).1 rfl
  rw [h]
  decide

/-- C8: on a table of well-formed rows, extraction returns exactly the
records whose id is not in the exclusion-ID set, in order. -/
theorem claim_C8_exclusion_filter (excl : List Int) (rows : List (List String))
    (hwf : ∀ r ∈ rows, (rowRecord? r).isSome = true) :
    processRows excl rows []
      = .ok (rows.filterMap (fun r => (rowRecord? r).bind
          (fun d => if goContainsInt excl d.ID then none else some d))) := by
  simpa using processRows_wellFormed excl rows [] hwf

/-- Witness for C8: excluding sensor ID 12 from a two-row table
yields the one non-excluded row. -/
theorem claim_C8_exclusion_filter_witness :
    processRows [12]
        [["12", "Fan1", "Fan", "Nominal", "3200", "RPM", "'OK'"],
         ["13", "Temp", "Temperature", "Warning", "45", "C", "'OK'"]] []
      = .ok [{ ID := 13, Name := "Temp", Typ := "Temperature", State := "Warning",
               Value := .fin 45, Unit := "C", Event := "OK" }] := by
  rw [claim_C8_exclusion_filter [12] _ (by decide)]
  decide

/-- C9: single-value extraction scans the output line by line and
returns the first captured value; when no line matches it returns a
not-found error whose message includes the full raw output; and DCMI
power extraction of `Current Power        : 150.500 Watts (Active)`
yields 150.5 (the rational 301/2). -/
theorem claim_C9_single_value (pat : String → Option String) (out : String) :
    (∀ pre l post v, splitLines out = pre ++ l :: post →
      (∀ p ∈ pre, pat p = none) → pat l = some v → getValue out pat = .ok v)
    ∧ ((∀ l ∈ splitLines out, pat l = none) →
        getValue out pat = .error (.notFound out)
        ∧ ∃ p, errMsg (.notFound out) = p ++ out)
    ∧ GetCurrentPowerConsumption ⟨"Current Power        : 150.500 Watts (Active)", none⟩
        = (.fin (mkRat 301 2), none) := by
  refine ⟨?_, ?_, by decide⟩
  · intro pre l post v hsplit hpre hl
    simp only [getValue, hsplit, getValueLines_first pat pre post l v hpre hl]
  · intro h
    exact ⟨by simp only [getValue, getValueLines_none pat _ h],
      "could not find value in output: ", rfl⟩

/-- Witness for C9: the first matching line wins on a concrete
two-line output, and a non-matching output yields the not-found
error. -/
theorem claim_C9_single_value_witness :
    getValue "junk\nCurrent Power : 42 Watts" dcmiPowerMatch = .ok "42"
    ∧ getValue "junk" dcmiPowerMatch = .error (.notFound "junk") := by
  constructor
  · exact (claim_C9_single_value dcmiPowerMatch "junk\nCurrent Power : 42 Watts").1
      ["junk"] "Current Power : 42 Watts" [] "42" (by decide) (by decide) (by decide)
  · exact ((claim_C9_single_value dcmiPowerMatch "junk").2.1 (by decide)).1

/-- C10: a row whose id parses to an excluded integer is dropped
before its value field is examined: removing it from the table leaves
the loop's outcome unchanged, so a malformed value field in an
excluded row never causes the parse to fail. -/
theorem claim_C10_excluded_before_value (excl : List Int) (f0 : String) (t : List String)
    (id : Int) (pre post : List (List String)) (acc : List SensorData)
    (hid : parseGoInt f0 = some id) (hex : goContainsInt excl id = true) :
    processRows excl (pre ++ (f0 :: t) :: post) acc = processRows excl (pre ++ post) acc :=
  processRows_skip_excluded excl f0 t id hid hex pre post acc

/-- Witness for C10: an excluded row with malformed value field `xx`
is dropped and the remaining row is still returned. -/
theorem claim_C10_excluded_before_value_witness :
    processRows [12]
        [["12", "a", "b", "c", "xx", "u", "'e'"], ["13", "a", "b", "c", "5", "u", "'e'"]] []
      = processRows [12] [["13", "a", "b", "c", "5", "u", "'e'"]] [] :=
  claim_C10_excluded_before_value [12] "12" ["a", "b", "c", "xx", "u", "'e'"] 12
    [] [["13", "a", "b", "c", "5", "u", "'e'"]] [] (by decide) (by decide)

end IpmiExporter
